import Mathlib

/-!
Verification of the Meeting Resolution and Transcript Normalization Pipeline.

This file gives a shallow embedding of the repository source:
  - the VTT pre-processing utility (cleanVttTranscript, mergeSpeakerLines),
    modelled character-by-character over List Char, including the JavaScript
    regular-expression semantics the source relies on;
  - the Microsoft Graph client functions (graphGetSafe, fetchCalendarEvents,
    buildDateRange, resolveOnlineMeeting, tryResolveByJoinUrl,
    resolveCalendarEvent, listMeetings, findMeetingsByName, listTranscripts,
    getTranscriptContent), with the network modelled as an oracle record and
    thrown exceptions modelled with Except;
  - the MCP tool handlers of server.ts that the claims reference.

Theorems about these definitions settle the frozen claims.
-/

set_option maxRecDepth 10000

/-- The JavaScript whitespace class matched by the regex escape for
whitespace and removed by trim: tab, LF, VT, FF, CR, space, NBSP, and the
Unicode space separators, line/paragraph separators and BOM. -/
def isWsTS (c : Char) : Bool :=
  c == ' ' || c == '\t' || c == '\n' || c == '\r' || c == '\x0B' || c == '\x0C' ||
  c == ' ' || c == ' ' ||
  (decide (0x2000 ≤ c.toNat) && decide (c.toNat ≤ 0x200A)) ||
  c == ' ' || c == ' ' || c == ' ' || c == ' ' ||
  c == '　' || c == '﻿'

/-- Model of the JavaScript String.prototype.trim on character lists. -/
def trimTS (l : List Char) : List Char :=
  ((l.dropWhile isWsTS).reverse.dropWhile isWsTS).reverse

/-- Split on the regex matching an optional CR followed by LF, as in the
source rawVtt.split: a CR immediately followed by LF is part of the
separator, a lone CR is content. -/
def splitLinesCh : List Char → List (List Char)
  | [] => [[]]
  | '\r' :: '\n' :: rest => [] :: splitLinesCh rest
  | '\n' :: rest => [] :: splitLinesCh rest
  | c :: rest =>
    match splitLinesCh rest with
    | [] => [[c]]
    | l :: ls => (c :: l) :: ls

/-- The join by a newline used by mergeSpeakerLines. -/
def joinLinesCh : List (List Char) → List Char
  | [] => []
  | [l] => l
  | l :: rest => l ++ '\n' :: joinLinesCh rest

/-- JavaScript word characters (ASCII letters, digits, underscore). -/
def isWordCh (c : Char) : Bool :=
  c.isAlpha || c.isDigit || c == '_'

/-- Case-insensitive prefix test (both sides lowered, as the i flag does). -/
def startsWithCI : List Char → List Char → Bool
  | [], _ => true
  | _ :: _, [] => false
  | p :: ps, c :: cs => p.toLower == c.toLower && startsWithCI ps cs

/-- The header test: the trimmed line starts with WEBVTT, case-insensitive. -/
def isWebvttLine (t : List Char) : Bool :=
  startsWithCI ['W', 'E', 'B', 'V', 'T', 'T'] t

/-- The comment-block opener test: NOTE case-insensitive followed by a word
boundary (end of line or a non-word character). -/
def isNoteLine (t : List Char) : Bool :=
  startsWithCI ['N', 'O', 'T', 'E'] t &&
    match t.drop 4 with
    | [] => true
    | c :: _ => !(isWordCh c)

/-- Consume exactly n decimal digits. -/
def parseDigitsN : Nat → List Char → Option (List Char)
  | 0, l => some l
  | _ + 1, [] => none
  | n + 1, c :: l => if c.isDigit then parseDigitsN n l else none

/-- Consume one given character. -/
def parseCh (ch : Char) : List Char → Option (List Char)
  | [] => none
  | c :: l => if c == ch then some l else none

/-- Consume a cue timestamp of shape two digits, colon, two digits, colon,
two digits, dot, three digits. -/
def parseStamp (l : List Char) : Option (List Char) := do
  let l ← parseDigitsN 2 l
  let l ← parseCh ':' l
  let l ← parseDigitsN 2 l
  let l ← parseCh ':' l
  let l ← parseDigitsN 2 l
  let l ← parseCh '.' l
  parseDigitsN 3 l

/-- The timing-line test: timestamp, optional whitespace, the arrow, optional
whitespace, timestamp; anchored at the start only. -/
def isTimingLine (t : List Char) : Bool :=
  (do
    let l ← parseStamp t
    let l := l.dropWhile isWsTS
    let l ← parseCh '-' l
    let l ← parseCh '-' l
    let l ← parseCh '>' l
    let l := l.dropWhile isWsTS
    let _ ← parseStamp l
    pure ()).isSome

/-- The pure-numeric cue-identifier test (full match, nonempty). -/
def isNumericLine (t : List Char) : Bool :=
  !t.isEmpty && t.all Char.isDigit

/-- Hexadecimal digit, case-insensitive. -/
def isHexCh (c : Char) : Bool :=
  c.isDigit || (decide ('a' ≤ c.toLower) && decide (c.toLower ≤ 'f'))

/-- Consume exactly n hexadecimal digits. -/
def parseHexN : Nat → List Char → Option (List Char)
  | 0, l => some l
  | _ + 1, [] => none
  | n + 1, c :: l => if isHexCh c then parseHexN n l else none

/-- The UUID-shaped cue-identifier test: 8-4-4-4-12 hex groups, full match. -/
def isUuidLine (t : List Char) : Bool :=
  (do
    let l ← parseHexN 8 t
    let l ← parseCh '-' l
    let l ← parseHexN 4 l
    let l ← parseCh '-' l
    let l ← parseHexN 4 l
    let l ← parseCh '-' l
    let l ← parseHexN 4 l
    let l ← parseCh '-' l
    let l ← parseHexN 12 l
    match l with
    | [] => some ()
    | _ :: _ => none).isSome

/-- Index of the first closing angle bracket. -/
def findGtIdx : List Char → Option Nat
  | [] => none
  | c :: rest => if c == '>' then some 0 else (findGtIdx rest).map (· + 1)

/-- Length of the maximal whitespace run at the front. -/
def wsRunLen (l : List Char) : Nat :=
  (l.takeWhile isWsTS).length

/-- Does a voice-tag match follow an opening bracket here: v
case-insensitive, a whitespace run of length at least one, a first closing
bracket at index at least two. -/
def vtagTagOk : List Char → Bool
  | [] => false
  | v :: u =>
    v.toLower == 'v' &&
      match findGtIdx u with
      | some k => decide (1 ≤ wsRunLen u) && decide (2 ≤ k)
      | none => false

/-- The capture of a voice-tag match: the characters between the end of the
whitespace run (shortened by one when the run touches the bracket) and the
first closing bracket. -/
def vtagCapture : List Char → List Char
  | [] => []
  | _ :: u =>
    match findGtIdx u with
    | some k => (u.take k).drop (min (wsRunLen u) (k - 1))
    | none => []

/-- One-pass scanner for the global voice-tag replacement. In skip mode
(first argument true) the scanner is inside a matched tag and drops
characters up to and including the first closing bracket, then resumes
scanning. A recognised match is replaced by its capture followed by a
colon and a space. -/
def vtagStep : Bool → List Char → List Char
  | _, [] => []
  | true, c :: rest => if c == '>' then vtagStep false rest else vtagStep true rest
  | false, c :: rest =>
    if c == '<' && vtagTagOk rest then
      vtagCapture rest ++ ':' :: ' ' :: vtagStep true rest
    else c :: vtagStep false rest

/-- Global replacement of the voice-tag pattern, starting in scan mode. -/
def replaceVTags (l : List Char) : List Char :=
  vtagStep false l

/-- Does a closing voice tag start right after an opening bracket here. -/
def closeVAt : List Char → Bool
  | '/' :: v :: '>' :: _ => v.toLower == 'v'
  | _ => false

/-- Scanner for closing-voice-tag removal, dropping a counted number of
characters after a recognised match. -/
def cvStep : Nat → List Char → List Char
  | _ + 1, [] => []
  | n + 1, _ :: rest => cvStep n rest
  | 0, [] => []
  | 0, c :: rest =>
    if c == '<' && closeVAt rest then cvStep 3 rest
    else c :: cvStep 0 rest

/-- Global removal of the closing voice tag (v case-insensitive). -/
def stripCloseV (l : List Char) : List Char :=
  cvStep 0 l

/-- Does a generic tag match start here: at least one non-bracket character
followed by a closing bracket. -/
def hasTagEnd : List Char → Bool
  | [] => false
  | d :: rest => !(d == '>') && rest.contains '>'

/-- One-pass scanner for generic tag removal: in skip mode it is inside a
matched tag and drops characters up to and including the first closing
bracket; in scan mode an opening bracket that has a later closing bracket
with at least one character between starts a match, any other character is
copied. -/
def tagStep : Bool → List Char → List Char
  | _, [] => []
  | true, c :: rest => if c == '>' then tagStep false rest else tagStep true rest
  | false, c :: rest =>
    if c == '<' then
      if hasTagEnd rest then tagStep true rest
      else c :: tagStep false rest
    else c :: tagStep false rest

/-- Global removal of remaining markup tags. -/
def stripTags (l : List Char) : List Char :=
  tagStep false l

/-- One-pass scanner replacing every whitespace run of length at least two
by a single space; a run of length one is kept as the original character.
In run mode the scanner drops the remaining whitespace of a run already
replaced. -/
def wsStep : Bool → List Char → List Char
  | _, [] => []
  | true, c :: rest => if isWsTS c then wsStep true rest else c :: wsStep false rest
  | false, c :: rest =>
    if isWsTS c then
      if (match rest with | d :: _ => isWsTS d | [] => false) then ' ' :: wsStep true rest
      else c :: wsStep false rest
    else c :: wsStep false rest

/-- Global collapse of whitespace runs, starting in scan mode. -/
def collapseWs (l : List Char) : List Char :=
  wsStep false l

/-- The dialogue-cleaning chain applied to a trimmed line: voice-tag
rewrite, closing-tag removal, generic tag removal, whitespace collapse,
final trim. -/
def dialogueClean (t : List Char) : List Char :=
  trimTS (collapseWs (stripTags (stripCloseV (replaceVTags t))))

/-- The per-line filtering pass of cleanVttTranscript with the skipNote
state: blank lines end a NOTE block, the header, NOTE openers, lines inside
a NOTE block, timing lines and numeric or UUID cue identifiers are dropped,
everything else is cleaned as dialogue and kept when nonempty. -/
def cleanLinesVtt : List (List Char) → Bool → List (List Char)
  | [], _ => []
  | l :: rest, skipNote =>
    let t := trimTS l
    if t = [] then cleanLinesVtt rest false
    else if isWebvttLine t then cleanLinesVtt rest skipNote
    else if isNoteLine t then cleanLinesVtt rest true
    else if skipNote then cleanLinesVtt rest skipNote
    else if isTimingLine t then cleanLinesVtt rest skipNote
    else if isNumericLine t then cleanLinesVtt rest skipNote
    else if isUuidLine t then cleanLinesVtt rest skipNote
    else
      let c := dialogueClean t
      if c = [] then cleanLinesVtt rest skipNote
      else c :: cleanLinesVtt rest skipNote

/-- The speaker-line match of mergeSpeakerLines: at least one non-colon
character, a colon, optional whitespace, the rest of the line (a dot does
not match LF); group one trimmed is the speaker, group two trimmed the
text. -/
def speakerMatch (l : List Char) : Option (List Char × List Char) :=
  match l.dropWhile (fun c => !(c == ':')) with
  | [] => none
  | _ :: u =>
    let pre := l.takeWhile (fun c => !(c == ':'))
    if pre = [] then none
    else some (trimTS pre, trimTS ((u.dropWhile isWsTS).takeWhile (fun c => !(c == '\n'))))

/-- The merge loop of mergeSpeakerLines: current speaker and accumulating
text buffer; the empty current speaker is falsy, so nothing is flushed for
it. -/
def mergeAux : List (List Char) → List Char → List Char → List (List Char)
  | [], cs, ct => if cs = [] then [] else [cs ++ ':' :: ' ' :: ct]
  | l :: rest, cs, ct =>
    match speakerMatch l with
    | some (sp, tx) =>
      if sp = cs then mergeAux rest cs (ct ++ ' ' :: tx)
      else if cs = [] then mergeAux rest sp tx
      else (cs ++ ':' :: ' ' :: ct) :: mergeAux rest sp tx
    | none =>
      if cs = [] then l :: mergeAux rest cs ct
      else mergeAux rest cs (ct ++ ' ' :: l)

/-- mergeSpeakerLines from the source: merge consecutive lines of one
speaker and join the paragraphs by newlines. -/
def mergeSpeakerLines (lines : List (List Char)) : List Char :=
  joinLinesCh (mergeAux lines [] [])

/-- cleanVttTranscript from the source: split into physical lines, run the
filtering state machine, merge consecutive same-speaker lines. -/
def cleanVttTranscript (s : String) : String :=
  String.mk (mergeSpeakerLines (cleanLinesVtt (splitLinesCh s.data) false))

/-- The ordered paragraph list produced by the merge pass for an input, as
strings; cleanVttTranscript is their newline join. -/
def cleanedParagraphs (s : String) : List String :=
  (mergeAux (cleanLinesVtt (splitLinesCh s.data) false) [] []).map String.mk

/-- A line that the filtering pass always drops, regardless of state:
blank after trimming, header, NOTE opener, timing line, or a numeric or
UUID cue identifier. -/
def isMetaLine (t : List Char) : Bool :=
  t.isEmpty || isWebvttLine t || isNoteLine t || isTimingLine t ||
    isNumericLine t || isUuidLine t

/-- The speaker of a merged paragraph, as re-read by the speaker-line
match. -/
def speakerOf (l : List Char) : Option (List Char) :=
  (speakerMatch l).map Prod.fst

/-- No two adjacent entries are speaker-attributed to the same speaker. -/
def okAdjCh : List (List Char) → Prop
  | [] => True
  | [_] => True
  | a :: b :: rest =>
    (∀ s, speakerOf a = some s → speakerOf b = some s → False) ∧ okAdjCh (b :: rest)

/-- String version of speakerOf. -/
def speakerOfStr (s : String) : Option String :=
  (speakerMatch s.data).map (fun p => String.mk p.1)

/-- String version of okAdjCh. -/
def okAdjStr : List String → Prop
  | [] => True
  | [_] => True
  | a :: b :: rest =>
    (∀ s, speakerOfStr a = some s → speakerOfStr b = some s → False) ∧ okAdjStr (b :: rest)

/-- Lowercase a character list, as toLowerCase does. -/
def toLowerCh (l : List Char) : List Char :=
  l.map Char.toLower

/-- Prefix test for the substring search. -/
def startsWithCh : List Char → List Char → Bool
  | [], _ => true
  | _ :: _, [] => false
  | p :: ps, c :: cs => p == c && startsWithCh ps cs

/-- The JavaScript String.prototype.includes on character lists. -/
def containsSub (needle : List Char) : List Char → Bool
  | [] => needle.isEmpty
  | c :: rest => startsWithCh needle (c :: rest) || containsSub needle rest

/-- The JavaScript String.prototype.includes. -/
def strIncludes (hay needle : String) : Bool :=
  containsSub needle.data hay.data

/-- Value of one hexadecimal digit. -/
def hexDigitVal (c : Char) : Option Nat :=
  if '0' ≤ c ∧ c ≤ '9' then some (c.toNat - 48)
  else if 'A' ≤ c ∧ c ≤ 'F' then some (c.toNat - 55)
  else if 'a' ≤ c ∧ c ≤ 'f' then some (c.toNat - 87)
  else none

/-- Lex a percent-encoded string into raw characters and escaped bytes;
fails, as decodeURIComponent throws, when a percent sign is not followed
by two hexadecimal digits. -/
def pctLex : List Char → Option (List (Sum Char Nat))
  | [] => some []
  | '%' :: h :: lo :: rest => do
    let a ← hexDigitVal h
    let b ← hexDigitVal lo
    let t ← pctLex rest
    pure (Sum.inr (16 * a + b) :: t)
  | '%' :: _ => none
  | c :: rest => do
    let t ← pctLex rest
    pure (Sum.inl c :: t)

/-- Reassemble escaped UTF-8 byte sequences, following the ECMAScript
Decode algorithm: a lead byte determines the number of continuation
bytes and their admissible ranges (overlong encodings and surrogates
rejected); any malformed sequence fails as decodeURIComponent throws. -/
def utf8Asm : List (Sum Char Nat) → Option (List Char)
  | [] => some []
  | Sum.inl c :: rest => do
    let t ← utf8Asm rest
    pure (c :: t)
  | Sum.inr b :: rest =>
    if b < 0x80 then do
      let t ← utf8Asm rest
      pure (Char.ofNat b :: t)
    else if 0xC2 ≤ b ∧ b ≤ 0xDF then
      match rest with
      | Sum.inr c1 :: rest2 =>
        if 0x80 ≤ c1 ∧ c1 ≤ 0xBF then do
          let t ← utf8Asm rest2
          pure (Char.ofNat ((b - 0xC0) * 64 + (c1 - 0x80)) :: t)
        else none
      | _ => none
    else if 0xE0 ≤ b ∧ b ≤ 0xEF then
      match rest with
      | Sum.inr c1 :: Sum.inr c2 :: rest2 =>
        if ((if b = 0xE0 then 0xA0 else 0x80) ≤ c1 ∧ c1 ≤ (if b = 0xED then 0x9F else 0xBF))
            ∧ (0x80 ≤ c2 ∧ c2 ≤ 0xBF) then do
          let t ← utf8Asm rest2
          pure (Char.ofNat ((b - 0xE0) * 4096 + (c1 - 0x80) * 64 + (c2 - 0x80)) :: t)
        else none
      | _ => none
    else if 0xF0 ≤ b ∧ b ≤ 0xF4 then
      match rest with
      | Sum.inr c1 :: Sum.inr c2 :: Sum.inr c3 :: rest2 =>
        if ((if b = 0xF0 then 0x90 else 0x80) ≤ c1 ∧ c1 ≤ (if b = 0xF4 then 0x8F else 0xBF))
            ∧ (0x80 ≤ c2 ∧ c2 ≤ 0xBF) ∧ (0x80 ≤ c3 ∧ c3 ≤ 0xBF) then do
          let t ← utf8Asm rest2
          pure (Char.ofNat
            ((b - 0xF0) * 262144 + (c1 - 0x80) * 4096 + (c2 - 0x80) * 64 + (c3 - 0x80)) :: t)
        else none
      | _ => none
    else none

/-- Model of decodeURIComponent; none models a thrown URIError. -/
def decodeURIComponentJS (s : String) : Option String := do
  let toks ← pctLex s.data
  let cs ← utf8Asm toks
  pure (String.mk cs)

/-- The OnlineMeeting interface of the Graph client. -/
structure OnlineMeeting where
  id : String
  subject : String
  startDateTime : String
  endDateTime : String
  joinWebUrl : String
deriving DecidableEq

/-- The nested onlineMeeting field of a calendar event. -/
structure OnlineMeetingInfo where
  joinUrl : String
deriving DecidableEq

/-- The dateTime/timeZone pair of a calendar event boundary. -/
structure EventDateTime where
  dateTime : String
  timeZone : String
deriving DecidableEq

/-- The CalendarEvent interface; the source field named end is written
endTime here because end is a reserved word. -/
structure CalendarEvent where
  subject : String
  start : EventDateTime
  endTime : EventDateTime
  isOnlineMeeting : Bool
  onlineMeeting : Option OnlineMeetingInfo
deriving DecidableEq

/-- The TranscriptInfo interface; transcriptContentUrl appears in the
handler code of server.ts. -/
structure TranscriptInfo where
  id : String
  meetingId : String
  createdDateTime : String
  transcriptContentUrl : String
deriving DecidableEq

/-- The network oracle: each Graph endpoint's parsed response; none
models a thrown transport or HTTP error of the underlying graphGet. -/
structure GraphBackend where
  calendarView : String → String → Nat → Option (List CalendarEvent)
  onlineMeetingsByJoinUrl : String → Option (List OnlineMeeting)
  transcripts : String → Option (List TranscriptInfo)
  transcriptContent : String → String → Option String

/-- The two endpoints of the default date window, standing for the Date
arithmetic of now minus 30 days and now plus 7 days. -/
structure Clock where
  since : String
  ahead : String

/-- buildDateRange from the source: a single-day window for a given
filter date, otherwise the default window. -/
def buildDateRange (clk : Clock) (filterDate : Option String) : String × String :=
  match filterDate with
  | some d => (d ++ "T00:00:00Z", d ++ "T23:59:59Z")
  | none => (clk.since, clk.ahead)

/-- fetchCalendarEvents: request at most min(maxEvents, 100) entries; on
transport failure graphGetSafe yields null and the function returns the
empty list. -/
def fetchCalendarEvents (b : GraphBackend) (startDT endDT : String) (maxEvents : Nat) :
    List CalendarEvent :=
  match b.calendarView startDT endDT (min maxEvents 100) with
  | none => []
  | some events => events

/-- tryResolveByJoinUrl: query filtered by the join URL, take the first
element of the response value, null on failure. -/
def tryResolveByJoinUrl (b : GraphBackend) (joinUrl : String) : Option OnlineMeeting :=
  match b.onlineMeetingsByJoinUrl joinUrl with
  | none => none
  | some l => l.head?

/-- resolveOnlineMeeting: try the exact join URL first; if that yields
nothing, percent-decode (which may throw) and retry once with the decoded
form when it differs from the original. The second component records the
join-URL variants the backend was queried with. -/
def resolveOnlineMeeting (b : GraphBackend) (joinUrl : String) :
    Except String (Option OnlineMeeting) × List String :=
  match tryResolveByJoinUrl b joinUrl with
  | some m => (Except.ok (some m), [joinUrl])
  | none =>
    match decodeURIComponentJS joinUrl with
    | none => (Except.error "URIError: URI malformed", [joinUrl])
    | some decoded =>
      if decoded ≠ joinUrl then
        (Except.ok (tryResolveByJoinUrl b decoded), [joinUrl, decoded])
      else
        (Except.ok none, [joinUrl])

/-- resolveCalendarEvent: null when the event has no truthy join URL;
otherwise resolve, and on success overwrite the subject with the event
subject when that subject is truthy (nonempty), keeping every other
field. -/
def resolveCalendarEvent (b : GraphBackend) (event : CalendarEvent) :
    Except String (Option OnlineMeeting) × List String :=
  match event.onlineMeeting with
  | none => (Except.ok none, [])
  | some om =>
    if om.joinUrl = "" then (Except.ok none, [])
    else
      match resolveOnlineMeeting b om.joinUrl with
      | (Except.error e, calls) => (Except.error e, calls)
      | (Except.ok none, calls) => (Except.ok none, calls)
      | (Except.ok (some meeting), calls) =>
        (Except.ok (some { meeting with
          subject := if event.subject ≠ "" then event.subject else meeting.subject }), calls)

/-- The cheap filter of findMeetingsByName: the lowered subject contains
the lowered needle and the event carries a truthy join URL. -/
def nameMatchPred (needle : String) (e : CalendarEvent) : Bool :=
  containsSub needle.data (toLowerCh e.subject.data) &&
    match e.onlineMeeting with
    | some om => !(om.joinUrl == "")
    | none => false

/-- The survivors of the cheap filter over the fetched candidate set. -/
def nameMatchesOf (b : GraphBackend) (clk : Clock) (meetingName : String)
    (meetingDate : Option String) : List CalendarEvent :=
  let r := buildDateRange clk meetingDate
  let events := fetchCalendarEvents b r.1 r.2 100
  events.filter (nameMatchPred (String.mk (toLowerCh meetingName.data)))

/-- The sequential resolve loop of findMeetingsByName; the second
component lists the events on which the resolver was invoked. -/
def resolveLoop (b : GraphBackend) : List CalendarEvent →
    Except String (List OnlineMeeting) × List CalendarEvent
  | [] => (Except.ok [], [])
  | e :: rest =>
    match resolveCalendarEvent b e with
    | (Except.error err, _) => (Except.error err, [e])
    | (Except.ok none, _) =>
      let r := resolveLoop b rest
      (r.1, e :: r.2)
    | (Except.ok (some m), _) =>
      let r := resolveLoop b rest
      (r.1.map (fun ms => m :: ms), e :: r.2)

/-- findMeetingsByName from the source: fetch a broad candidate set,
filter by subject name and join URL first, short-circuit to the empty
list on zero matches, resolve only the survivors. -/
def findMeetingsByName (b : GraphBackend) (clk : Clock) (meetingName : String)
    (meetingDate : Option String) :
    Except String (List OnlineMeeting) × List CalendarEvent :=
  let nameMatches := nameMatchesOf b clk meetingName meetingDate
  if nameMatches.length = 0 then (Except.ok [], [])
  else resolveLoop b nameMatches

/-- The resolve loop of listMeetings with the early break once the number
of resolved meetings reaches the limit. -/
def resolveUpTo (b : GraphBackend) (limit : Nat) : List CalendarEvent → Nat →
    Except String (List OnlineMeeting) × List CalendarEvent
  | [], _ => (Except.ok [], [])
  | e :: rest, count =>
    if limit ≤ count then (Except.ok [], [])
    else
      match resolveCalendarEvent b e with
      | (Except.error err, _) => (Except.error err, [e])
      | (Except.ok none, _) =>
        let r := resolveUpTo b limit rest count
        (r.1, e :: r.2)
      | (Except.ok (some m), _) =>
        let r := resolveUpTo b limit rest (count + 1)
        (r.1.map (fun ms => m :: ms), e :: r.2)

/-- The client-side filter of listMeetings: a truthy Teams join URL. -/
def hasJoinUrl (e : CalendarEvent) : Bool :=
  match e.onlineMeeting with
  | some om => !(om.joinUrl == "")
  | none => false

/-- listMeetings from the source: default limit 10, fetch at most
min(3 times the limit, 100) events, filter client-side for a Teams join
URL, resolve sequentially with the early break. -/
def listMeetings (b : GraphBackend) (clk : Clock) (top : Option Nat)
    (filterDate : Option String) :
    Except String (List OnlineMeeting) × List CalendarEvent :=
  let limit := top.getD 10
  let r := buildDateRange clk filterDate
  let events := fetchCalendarEvents b r.1 r.2 (min (limit * 3) 100)
  let teamsMeetings := events.filter hasJoinUrl
  resolveUpTo b limit teamsMeetings 0

/-- listTranscripts (fail-hard): a transport error propagates; each entry
is stamped with the meeting id. -/
def listTranscripts (b : GraphBackend) (meetingId : String) :
    Except String (List TranscriptInfo) :=
  match b.transcripts meetingId with
  | none => Except.error "Graph API error"
  | some l => Except.ok (l.map (fun t => { t with meetingId := meetingId }))

/-- getTranscriptContent (fail-hard): the raw VTT text. -/
def getTranscriptContent (b : GraphBackend) (meetingId transcriptId : String) :
    Except String String :=
  match b.transcriptContent meetingId transcriptId with
  | none => Except.error "Graph API error"
  | some text => Except.ok text

/-- A tool response: the single text content entry and the error flag. -/
structure ToolResult where
  text : String
  isError : Bool
deriving DecidableEq

/-- The not-found message of handleGetMeetingTranscript, naming the
search term and the date filter when present. -/
def notFoundMsg (meetingName : String) (meetingDate : Option String) : String :=
  "No meeting found matching \"" ++ meetingName ++ "\"" ++
    (match meetingDate with
     | some d => " on " ++ d
     | none => "") ++
    ". Try broadening your search term or checking the date."

/-- The transcript-unavailable message of handleGetMeetingTranscript,
naming the meeting subject. -/
def noTranscriptMsg (meeting : OnlineMeeting) : String :=
  "Meeting \"" ++ meeting.subject ++ "\" was found (" ++ meeting.startDateTime ++
    ") but has no transcript available. Ensure transcription was enabled during the meeting."

/-- The header prefixed to a successfully retrieved transcript. -/
def transcriptHeaderMsg (meeting : OnlineMeeting) (t : TranscriptInfo) : String :=
  "Meeting: " ++ meeting.subject ++ "\nDate: " ++ meeting.startDateTime ++ "\n" ++
    "Transcript URL: " ++ t.transcriptContentUrl ++ "\n" ++
    "Transcript ID: " ++ t.id ++ "\n" ++
    "Transcript created: " ++ t.createdDateTime ++ "\n" ++
    "---\n\n"

/-- handleGetMeetingTranscript from server.ts; the second component lists
the content-download requests made during the call. -/
def handleGetMeetingTranscript (b : GraphBackend) (clk : Clock)
    (meetingName : Option String) (meetingDate : Option String) :
    Except String ToolResult × List (String × String) :=
  match meetingName with
  | none => (Except.ok ⟨"meetingName is required.", true⟩, [])
  | some mn =>
    if mn = "" then (Except.ok ⟨"meetingName is required.", true⟩, [])
    else
      match (findMeetingsByName b clk mn meetingDate).1 with
      | Except.error e => (Except.error e, [])
      | Except.ok [] => (Except.ok ⟨notFoundMsg mn meetingDate, false⟩, [])
      | Except.ok (meeting :: _) =>
        match listTranscripts b meeting.id with
        | Except.error e => (Except.error e, [])
        | Except.ok [] => (Except.ok ⟨noTranscriptMsg meeting, false⟩, [])
        | Except.ok (t0 :: _) =>
          match getTranscriptContent b meeting.id t0.id with
          | Except.error e => (Except.error e, [(meeting.id, t0.id)])
          | Except.ok rawVtt =>
            (Except.ok ⟨transcriptHeaderMsg meeting t0 ++ cleanVttTranscript rawVtt, false⟩,
              [(meeting.id, t0.id)])

/-- The per-meeting availability probe of handleListRecentMeetings: a
failing transcripts call is caught and reported as unavailable. -/
def hasTranscriptCheck (b : GraphBackend) (m : OnlineMeeting) : Bool :=
  match listTranscripts b m.id with
  | Except.error _ => false
  | Except.ok ts => decide (0 < ts.length)

/-- One numbered entry of the list_recent_meetings response text. -/
def meetingLine (idx : Nat) (m : OnlineMeeting) (hasT : Bool) : String :=
  toString (idx + 1) ++ ". **" ++ (if m.subject = "" then "(No subject)" else m.subject) ++
    "**\n" ++ "   Start: " ++ m.startDateTime ++ "\n" ++ "   End: " ++ m.endDateTime ++
    "\n" ++ "   Transcript: " ++ (if hasT then "Available" else "Not available") ++
    "\n" ++ "   Meeting ID: " ++ m.id

/-- The joined response text of handleListRecentMeetings. -/
def formatMeetingList (b : GraphBackend) (meetings : List OnlineMeeting) : String :=
  String.intercalate "\n\n"
    (meetings.enum.map (fun p => meetingLine p.1 p.2 (hasTranscriptCheck b p.2)))

/-- handleListRecentMeetings from server.ts: default limit 10, clamped to
at most 50 before calling listMeetings. -/
def handleListRecentMeetings (b : GraphBackend) (clk : Clock)
    (limitArg : Option Nat) (date : Option String) : Except String ToolResult :=
  let limit := limitArg.getD 10
  let top := min limit 50
  match (listMeetings b clk (some top) date).1 with
  | Except.error e => Except.error e
  | Except.ok meetings =>
    if meetings.length = 0 then
      Except.ok ⟨match date with
        | some d => "No meetings found for " ++ d ++ "."
        | none => "No recent meetings found.", false⟩
    else
      Except.ok ⟨formatMeetingList b meetings, false⟩

/-- The result count of a successful listing, zero on an error. -/
def lengthOfOk (r : Except String (List OnlineMeeting)) : Nat :=
  match r with
  | Except.ok l => l.length
  | Except.error _ => 0

/-- The resolver yields a meeting on this event (no exception, not null). -/
def resolvesOk (b : GraphBackend) (e : CalendarEvent) : Bool :=
  match (resolveCalendarEvent b e).1 with
  | Except.ok (some _) => true
  | _ => false

/-- Sample calendar event: an online standup with a join URL. -/
def evtA : CalendarEvent :=
  { subject := "Team Standup", start := ⟨"2026-02-01T10:00:00Z", "UTC"⟩,
    endTime := ⟨"2026-02-01T10:30:00Z", "UTC"⟩, isOnlineMeeting := true,
    onlineMeeting := some ⟨"https://teams.example/join/a"⟩ }

/-- Sample calendar event: a second standup with a join URL. -/
def evtB : CalendarEvent :=
  { subject := "Weekly Standup", start := ⟨"2026-02-02T10:00:00Z", "UTC"⟩,
    endTime := ⟨"2026-02-02T10:30:00Z", "UTC"⟩, isOnlineMeeting := true,
    onlineMeeting := some ⟨"https://teams.example/join/b"⟩ }

/-- Sample calendar event whose subject does not match a standup search. -/
def evtC : CalendarEvent :=
  { subject := "Retrospective", start := ⟨"2026-02-03T10:00:00Z", "UTC"⟩,
    endTime := ⟨"2026-02-03T10:30:00Z", "UTC"⟩, isOnlineMeeting := true,
    onlineMeeting := some ⟨"https://teams.example/join/c"⟩ }

/-- The backend object behind the first sample event. -/
def mtgA : OnlineMeeting :=
  ⟨"idA", "Standup (backend)", "2026-02-01T10:00:00Z", "2026-02-01T10:30:00Z",
    "https://teams.example/join/a"⟩

/-- The backend object behind the second sample event. -/
def mtgB : OnlineMeeting :=
  ⟨"idB", "Standup (backend)", "2026-02-02T10:00:00Z", "2026-02-02T10:30:00Z",
    "https://teams.example/join/b"⟩

/-- The first sample meeting as resolveCalendarEvent returns it: the
subject overwritten with the calendar subject, every other field kept. -/
def mtgAres : OnlineMeeting :=
  ⟨"idA", "Team Standup", "2026-02-01T10:00:00Z", "2026-02-01T10:30:00Z",
    "https://teams.example/join/a"⟩

/-- The second sample meeting as resolveCalendarEvent returns it. -/
def mtgBres : OnlineMeeting :=
  ⟨"idB", "Weekly Standup", "2026-02-02T10:00:00Z", "2026-02-02T10:30:00Z",
    "https://teams.example/join/b"⟩

/-- A backend with three events, two of whose subjects match a standup
search, and an empty transcript list for every meeting. -/
def wBackend : GraphBackend :=
  { calendarView := fun _ _ _ => some [evtA, evtB, evtC],
    onlineMeetingsByJoinUrl := fun u =>
      if u = "https://teams.example/join/a" then some [mtgA]
      else if u = "https://teams.example/join/b" then some [mtgB]
      else some [],
    transcripts := fun _ => some [],
    transcriptContent := fun _ _ => none }

/-- A concrete default date window. -/
def wClk : Clock := ⟨"2026-01-05T00:00:00Z", "2026-02-11T00:00:00Z"⟩

/-- The meeting reachable only through the percent-decoded join URL. -/
def mtgD : OnlineMeeting :=
  ⟨"idD", "Decoded Meeting", "2026-02-04T10:00:00Z", "2026-02-04T10:30:00Z",
    "https://teams.example/a b"⟩

/-- A backend that answers only the decoded form of the join URL. -/
def decBackend : GraphBackend :=
  { calendarView := fun _ _ _ => none,
    onlineMeetingsByJoinUrl := fun u =>
      if u = "https://teams.example/a b" then some [mtgD] else some [],
    transcripts := fun _ => none,
    transcriptContent := fun _ _ => none }

/-- A backend on which every Graph request fails (throws). -/
def failingBackend : GraphBackend :=
  ⟨fun _ _ _ => none, fun _ => none, fun _ => none, fun _ _ => none⟩

/-- A calendar event with an empty (falsy) subject. -/
def evtNoSubject : CalendarEvent :=
  { subject := "", start := ⟨"2026-02-05T10:00:00Z", "UTC"⟩,
    endTime := ⟨"2026-02-05T10:30:00Z", "UTC"⟩, isOnlineMeeting := true,
    onlineMeeting := some ⟨"u9"⟩ }

/-- The backend object behind the empty-subject event. -/
def mtg9 : OnlineMeeting := ⟨"id9", "Backend Subject", "st9", "et9", "u9"⟩

/-- A backend resolving the empty-subject event's join URL. -/
def b9 : GraphBackend :=
  { calendarView := fun _ _ _ => none,
    onlineMeetingsByJoinUrl := fun u => if u = "u9" then some [mtg9] else some [],
    transcripts := fun _ => none,
    transcriptContent := fun _ _ => none }

/-- A calendar event that survives the cheap standup filter but carries a
malformed percent-encoded join URL. -/
def evtBad : CalendarEvent :=
  { subject := "Standup Broken", start := ⟨"2026-02-07T10:00:00Z", "UTC"⟩,
    endTime := ⟨"2026-02-07T10:30:00Z", "UTC"⟩, isOnlineMeeting := true,
    onlineMeeting := some ⟨"%"⟩ }

/-- A backend whose candidate set puts the malformed-URL survivor before a
resolvable one; the malformed URL misses its exact lookup. -/
def cexBackend : GraphBackend :=
  { calendarView := fun _ _ _ => some [evtBad, evtA],
    onlineMeetingsByJoinUrl := fun u =>
      if u = "https://teams.example/join/a" then some [mtgA] else some [],
    transcripts := fun _ => some [],
    transcriptContent := fun _ _ => none }

/-- Fifty-one distinct online events, each with a join URL. -/
def manyEvents : List CalendarEvent :=
  (List.range 51).map (fun i =>
    { subject := "Meeting " ++ toString i,
      start := ⟨"2026-02-06T10:00:00Z", "UTC"⟩,
      endTime := ⟨"2026-02-06T10:30:00Z", "UTC"⟩,
      isOnlineMeeting := true,
      onlineMeeting := some ⟨"u" ++ toString i⟩ })

/-- A backend serving the fifty-one events and resolving every join URL. -/
def bigBackend : GraphBackend :=
  { calendarView := fun _ _ _ => some manyEvents,
    onlineMeetingsByJoinUrl := fun u => some [⟨"id-" ++ u, "S", "st", "et", u⟩],
    transcripts := fun _ => some [],
    transcriptContent := fun _ _ => none }

lemma cleanLinesVtt_nil_of_meta (ls : List (List Char))
    (h : ∀ l ∈ ls, isMetaLine (trimTS l) = true) :
    ∀ sk, cleanLinesVtt ls sk = [] := by
  induction ls with
  | nil => intro sk; rfl
  | cons l rest ih =>
    intro sk
    have hm := h l (by simp)
    have hrest : ∀ x ∈ rest, isMetaLine (trimTS x) = true := fun x hx => h x (by simp [hx])
    simp only [isMetaLine, Bool.or_eq_true, List.isEmpty_iff] at hm
    simp only [cleanLinesVtt]
    split_ifs with h1 h2 h3 h4 h5 h6 h7 h8
    all_goals try exact ih hrest _
    simp [h1, h2, h3, h5, h6, h7] at hm

/-- C2: the literal VTT sample cleans to the two expected speaker
paragraphs: header, timing lines and cue identifiers dropped, voice tags
rewritten to speaker prefixes, consecutive same-speaker cues merged. -/
theorem c2_clean_vtt_literal_case :
    cleanVttTranscript
      "WEBVTT\n\n1\n00:00:00.000 --> 00:00:02.000\n<v Alice>Hello there.</v>\n\n2\n00:00:02.000 --> 00:00:04.000\n<v Alice>How are you?</v>\n\n3\n00:00:04.000 --> 00:00:06.000\n<v Bob>I\x27m fine thanks.</v>"
      = "Alice: Hello there. How are you?\nBob: I\x27m fine thanks." := by
  decide

/-- C10: cleanVttTranscript is a total function, and on any input all of
whose lines are blank, header, NOTE, timing, or numeric or UUID cue
identifier lines, it returns the empty string. -/
theorem c10_meta_only_input_cleans_to_empty (s : String)
    (h : ∀ l ∈ splitLinesCh s.data, isMetaLine (trimTS l) = true) :
    cleanVttTranscript s = "" := by
  unfold cleanVttTranscript mergeSpeakerLines
  rw [cleanLinesVtt_nil_of_meta _ h false]
  rfl

/-- Witness for C10 at the empty string and at a concrete all-metadata
input. -/
theorem c10_witness :
    cleanVttTranscript "" = "" ∧
      cleanVttTranscript
        "WEBVTT\n\nNOTE confidential\n\n1\n00:00:00.000 --> 00:00:02.000\n\nb0c7cde2-1111-2222-3333-444455556666" = "" :=
  ⟨c10_meta_only_input_cleans_to_empty "" (by decide),
    c10_meta_only_input_cleans_to_empty _ (by decide)⟩

lemma trimTS_sublist (l : List Char) : List.Sublist (trimTS l) l := by
  have h1 : List.Sublist (l.dropWhile isWsTS) l := List.dropWhile_sublist _
  have h2 : List.Sublist ((l.dropWhile isWsTS).reverse.dropWhile isWsTS)
      ((l.dropWhile isWsTS).reverse) := List.dropWhile_sublist _
  have h3 := h2.reverse
  rw [List.reverse_reverse] at h3
  exact h3.trans h1

lemma mem_trimTS (l : List Char) (c : Char) (h : c ∈ trimTS l) : c ∈ l :=
  (trimTS_sublist l).mem h

lemma dropWhile_head_false (p : Char → Bool) (l : List Char) (c : Char)
    (h : (l.dropWhile p).head? = some c) : p c = false := by
  have hh := List.head?_dropWhile_not p l
  rw [h] at hh
  exact hh

lemma dropWhile_eq_self_of_head (p : Char → Bool) (l : List Char)
    (h : ∀ c, l.head? = some c → p c = false) : l.dropWhile p = l := by
  cases l with
  | nil => rfl
  | cons c t =>
    have hc := h c rfl
    simp [List.dropWhile_cons, hc]

lemma trimTS_head_false (l : List Char) (c : Char)
    (h : (trimTS l).head? = some c) : isWsTS c = false := by
  unfold trimTS at h
  set A := l.dropWhile isWsTS with hA
  set B := A.reverse.dropWhile isWsTS with hB
  have hdec : A.reverse = A.reverse.takeWhile isWsTS ++ B := by
    rw [hB, List.takeWhile_append_dropWhile]
  cases hBe : B with
  | nil => rw [hBe] at h; simp at h
  | cons b bs =>
    have hBne : B.reverse ≠ [] := by simp [hBe]
    have hAeq : A = B.reverse ++ (A.reverse.takeWhile isWsTS).reverse := by
      have := congrArg List.reverse hdec
      rwa [List.reverse_reverse, List.reverse_append] at this
    have hhead : A.head? = some c := by
      rw [hAeq, List.head?_append_of_ne_nil _ hBne]
      exact h
    exact dropWhile_head_false isWsTS l c hhead

lemma trimTS_idem (l : List Char) : trimTS (trimTS l) = trimTS l := by
  have h1 : (trimTS l).dropWhile isWsTS = trimTS l :=
    dropWhile_eq_self_of_head _ _ (fun c hc => trimTS_head_false l c hc)
  show (((trimTS l).dropWhile isWsTS).reverse.dropWhile isWsTS).reverse = trimTS l
  rw [h1]
  have h2 : (trimTS l).reverse = (l.dropWhile isWsTS).reverse.dropWhile isWsTS := by
    unfold trimTS
    rw [List.reverse_reverse]
  rw [h2]
  have h3 : ((l.dropWhile isWsTS).reverse.dropWhile isWsTS).dropWhile isWsTS
      = (l.dropWhile isWsTS).reverse.dropWhile isWsTS :=
    dropWhile_eq_self_of_head _ _ (fun c hc => dropWhile_head_false _ _ _ hc)
  rw [h3, ← h2, List.reverse_reverse]

lemma trimTS_ne_nil_of_head (l : List Char) (c : Char) (hh : l.head? = some c)
    (hc : isWsTS c = false) : trimTS l ≠ [] := by
  intro hnil
  have h1 : l.dropWhile isWsTS = l := by
    apply dropWhile_eq_self_of_head
    intro d hd
    rw [hh] at hd
    cases hd
    exact hc
  unfold trimTS at hnil
  rw [h1] at hnil
  have h2 : l.reverse.dropWhile isWsTS = [] := by
    have := congrArg List.reverse hnil
    simpa using this
  have h3 : ∀ d ∈ l.reverse, isWsTS d = true := List.dropWhile_eq_nil_iff.mp h2
  cases l with
  | nil => cases hh
  | cons a t =>
    cases hh
    have : isWsTS c = true := h3 c (by simp)
    rw [hc] at this
    cases this

lemma trimTS_fix_head (l : List Char) (c : Char) (t : List Char)
    (hfix : trimTS l = l) (he : l = c :: t) : isWsTS c = false := by
  apply trimTS_head_false l
  rw [hfix, he]
  rfl

lemma takeWhile_append_all (p : Char → Bool) (xs ys : List Char)
    (h : ∀ c ∈ xs, p c = true) :
    (xs ++ ys).takeWhile p = xs ++ ys.takeWhile p := by
  induction xs with
  | nil => simp
  | cons c t ih =>
    have hc : p c = true := h c (by simp)
    simp [List.takeWhile_cons, hc, ih (fun d hd => h d (by simp [hd]))]

lemma dropWhile_append_all (p : Char → Bool) (xs ys : List Char)
    (h : ∀ c ∈ xs, p c = true) :
    (xs ++ ys).dropWhile p = ys.dropWhile p := by
  induction xs with
  | nil => simp
  | cons c t ih =>
    have hc : p c = true := h c (by simp)
    simp [List.dropWhile_cons, hc, ih (fun d hd => h d (by simp [hd]))]

lemma speakerMatch_some_facts (l sp tx : List Char) (hfix : trimTS l = l)
    (hne : l ≠ []) (hm : speakerMatch l = some (sp, tx)) :
    sp ≠ [] ∧ (∀ c ∈ sp, (c == ':') = false) ∧ trimTS sp = sp := by
  unfold speakerMatch at hm
  cases hdw : l.dropWhile (fun c => !(c == ':')) with
  | nil => rw [hdw] at hm; cases hm
  | cons x u =>
    rw [hdw] at hm
    by_cases hpre : l.takeWhile (fun c => !(c == ':')) = []
    · simp only [hpre, if_pos rfl] at hm
      cases hm
    · simp only [if_neg hpre] at hm
      obtain ⟨hsp, htx⟩ := Prod.mk.injEq .. ▸ Option.some.inj hm
      cases l with
      | nil => exact absurd rfl hne
      | cons c0 t =>
        have hc0 : isWsTS c0 = false := trimTS_fix_head _ c0 t hfix rfl
        have hc0ne : (c0 == ':') = false := by
          cases hcc : (c0 == ':') with
          | false => rfl
          | true =>
            exfalso
            apply hpre
            rw [List.takeWhile_cons]
            simp [hcc]
        have hpree : (c0 :: t).takeWhile (fun c => !(c == ':'))
            = c0 :: t.takeWhile (fun c => !(c == ':')) := by
          rw [List.takeWhile_cons]
          simp [hc0ne]
        constructor
        · rw [← hsp]
          apply trimTS_ne_nil_of_head _ c0
          · rw [hpree]; rfl
          · exact hc0
        constructor
        · intro c hc
          have hcpre : c ∈ (c0 :: t).takeWhile (fun c => !(c == ':')) := by
            apply mem_trimTS
            rw [hsp]; exact hc
          have := List.mem_takeWhile_imp hcpre
          simpa using this
        · rw [← hsp]; exact trimTS_idem _

lemma speakerMatch_flush (cs ct : List Char) (hcs : cs ≠ [])
    (hnc : ∀ c ∈ cs, (c == ':') = false) (hts : trimTS cs = cs) :
    speakerMatch (cs ++ ':' :: ' ' :: ct)
      = some (cs, trimTS (((' ' :: ct).dropWhile isWsTS).takeWhile (fun c => !(c == '\n')))) := by
  have hall : ∀ c ∈ cs, (fun c => !(c == ':')) c = true := by
    intro c hc; simp [hnc c hc]
  have hdw : (cs ++ ':' :: ' ' :: ct).dropWhile (fun c => !(c == ':'))
      = ':' :: ' ' :: ct := by
    rw [dropWhile_append_all _ _ _ hall, List.dropWhile_cons]
    simp
  have htw : (cs ++ ':' :: ' ' :: ct).takeWhile (fun c => !(c == ':')) = cs := by
    rw [takeWhile_append_all _ _ _ hall, List.takeWhile_cons]
    simp
  unfold speakerMatch
  rw [hdw]
  simp only [htw, if_neg hcs, hts]

lemma speakerOf_flush (cs ct : List Char) (hcs : cs ≠ [])
    (hnc : ∀ c ∈ cs, (c == ':') = false) (hts : trimTS cs = cs) :
    speakerOf (cs ++ ':' :: ' ' :: ct) = some cs := by
  rw [speakerOf, speakerMatch_flush cs ct hcs hnc hts]
  rfl

lemma mergeAux_cons_eq (l : List Char) (rest : List (List Char)) (cs ct : List Char) :
    mergeAux (l :: rest) cs ct =
      match speakerMatch l with
      | some (sp, tx) =>
        if sp = cs then mergeAux rest cs (ct ++ ' ' :: tx)
        else if cs = [] then mergeAux rest sp tx
        else (cs ++ ':' :: ' ' :: ct) :: mergeAux rest sp tx
      | none =>
        if cs = [] then l :: mergeAux rest cs ct
        else mergeAux rest cs (ct ++ ' ' :: l) := rfl

lemma mergeAux_head (rest : List (List Char)) (cs : List Char) (hcs : cs ≠ []) :
    ∀ ct, ∃ t r, mergeAux rest cs ct = (cs ++ ':' :: ' ' :: t) :: r := by
  induction rest with
  | nil =>
    intro ct
    exact ⟨ct, [], by simp [mergeAux, hcs]⟩
  | cons l rest ih =>
    intro ct
    rw [mergeAux_cons_eq]
    cases hm : speakerMatch l with
    | none =>
      simp only [if_neg hcs]
      exact ih _
    | some p =>
      obtain ⟨sp, tx⟩ := p
      by_cases hsp : sp = cs
      · simp only [if_pos hsp]
        exact ih _
      · simp only [if_neg hsp, if_neg hcs]
        exact ⟨ct, mergeAux rest sp tx, rfl⟩

lemma okAdjCh_cons (a : List Char) (out : List (List Char)) (hout : okAdjCh out)
    (hhead : ∀ b, out.head? = some b → ∀ s, speakerOf a = some s → speakerOf b = some s → False) :
    okAdjCh (a :: out) := by
  cases out with
  | nil => trivial
  | cons b r => exact ⟨fun s h1 h2 => hhead b rfl s h1 h2, hout⟩

lemma cleanLinesVtt_good (ls : List (List Char)) :
    ∀ sk, ∀ t ∈ cleanLinesVtt ls sk, t ≠ [] ∧ trimTS t = t := by
  induction ls with
  | nil => intro sk t ht; simp [cleanLinesVtt] at ht
  | cons l rest ih =>
    intro sk t ht
    simp only [cleanLinesVtt] at ht
    split_ifs at ht with h1 h2 h3 h4 h5 h6 h7 h8
    all_goals try exact ih _ t ht
    rcases List.mem_cons.mp ht with rfl | hmem
    · refine ⟨h8, ?_⟩
      unfold dialogueClean
      exact trimTS_idem _
    · exact ih _ t hmem

lemma okAdj_mergeAux : ∀ L : List (List Char),
    (∀ l ∈ L, l ≠ [] ∧ trimTS l = l) →
    ∀ cs ct, (cs = [] ∨ (cs ≠ [] ∧ (∀ c ∈ cs, (c == ':') = false) ∧ trimTS cs = cs)) →
    okAdjCh (mergeAux L cs ct) := by
  intro L
  induction L with
  | nil =>
    intro _ cs ct _
    by_cases h : cs = [] <;> simp [mergeAux, h] <;> trivial
  | cons l rest ih =>
    intro hL cs ct hcs
    have hl := hL l (by simp)
    have hrest : ∀ x ∈ rest, x ≠ [] ∧ trimTS x = x := fun x hx => hL x (by simp [hx])
    rw [mergeAux_cons_eq]
    cases hm : speakerMatch l with
    | none =>
      by_cases h : cs = []
      · simp only [if_pos h, h]
        apply okAdjCh_cons _ _ (ih hrest [] ct (Or.inl rfl))
        intro b hb s h1 h2
        rw [speakerOf, hm] at h1
        cases h1
      · simp only [if_neg h]
        exact ih hrest cs _ hcs
    | some p =>
      obtain ⟨sp, tx⟩ := p
      have spg := speakerMatch_some_facts l sp tx hl.2 hl.1 hm
      by_cases hsp : sp = cs
      · simp only [if_pos hsp]
        exact ih hrest cs _ hcs
      · by_cases h : cs = []
        · simp only [if_neg hsp, if_pos h]
          exact ih hrest sp tx (Or.inr spg)
        · simp only [if_neg hsp, if_neg h]
          rcases hcs with hcs | hcs
          · exact absurd hcs h
          apply okAdjCh_cons _ _ (ih hrest sp tx (Or.inr spg))
          intro b hb s h1 h2
          obtain ⟨t0, r0, he⟩ := mergeAux_head rest sp spg.1 tx
          rw [he] at hb
          cases hb
          rw [speakerOf_flush cs ct hcs.1 hcs.2.1 hcs.2.2] at h1
          rw [speakerOf_flush sp t0 spg.1 spg.2.1 spg.2.2] at h2
          cases h1
          cases h2
          exact hsp rfl

lemma okAdjCh_map_str : ∀ L : List (List Char), okAdjCh L → okAdjStr (L.map String.mk) := by
  intro L
  induction L with
  | nil => intro _; trivial
  | cons a rest ih =>
    intro h
    cases rest with
    | nil => trivial
    | cons b r =>
      obtain ⟨hab, hrest⟩ := h
      refine ⟨?_, ih hrest⟩
      intro s h1 h2
      simp only [speakerOfStr, Option.map_eq_some'] at h1 h2
      obtain ⟨p, hp, hps⟩ := h1
      obtain ⟨q, hq, hqs⟩ := h2
      have hpq : p.1 = q.1 := by
        have := hps.trans hqs.symm
        exact congrArg String.data this
      apply hab p.1
      · rw [speakerOf, hp]; rfl
      · rw [speakerOf, hq, hpq]; rfl

/-- C4: for every input string, the ordered paragraph sequence produced by
the merge pass contains no two adjacent speaker-attributed paragraphs with
the same speaker. -/
theorem c4_no_adjacent_same_speaker (s : String) : okAdjStr (cleanedParagraphs s) := by
  unfold cleanedParagraphs
  apply okAdjCh_map_str
  exact okAdj_mergeAux _ (cleanLinesVtt_good _ false) [] [] (Or.inl rfl)

lemma resolveLoop_trace (b : GraphBackend) :
    ∀ evs, (∀ e ∈ evs, (resolveCalendarEvent b e).1.isOk = true) →
      (resolveLoop b evs).2 = evs := by
  intro evs
  induction evs with
  | nil => intro _; rfl
  | cons e rest ih =>
    intro h
    have he := h e (by simp)
    have hrest : ∀ x ∈ rest, (resolveCalendarEvent b x).1.isOk = true :=
      fun x hx => h x (by simp [hx])
    simp only [resolveLoop]
    cases hr : resolveCalendarEvent b e with
    | mk fst snd =>
      rw [hr] at he
      cases fst with
      | error err => simp [Except.isOk, Except.toBool] at he
      | ok mo =>
        cases mo with
        | none => simp [ih hrest]
        | some m => simp [ih hrest]

/-- C1 (amended): when every survivor's resolution completes without
throwing, findMeetingsByName invokes the resolver exactly once per event
surviving the cheap name-and-join-URL filter (its resolver-invocation
trace equals the survivor list, so N survivors mean exactly N resolver
calls), and with zero survivors it short-circuits to the empty list with
no resolver invocation at all. The no-throw hypothesis is necessary: a
survivor whose exact lookup misses and whose join URL is malformed
percent-encoding makes decodeURIComponent throw, the loop aborts, and
later survivors get no resolver call (see the counterexample). -/
theorem c1_name_filter_precedes_resolution (b : GraphBackend) (clk : Clock)
    (meetingName : String) (meetingDate : Option String)
    (h : ∀ e ∈ nameMatchesOf b clk meetingName meetingDate,
      (resolveCalendarEvent b e).1.isOk = true) :
    (findMeetingsByName b clk meetingName meetingDate).2 =
        nameMatchesOf b clk meetingName meetingDate
    ∧ (nameMatchesOf b clk meetingName meetingDate = [] →
        findMeetingsByName b clk meetingName meetingDate = (Except.ok [], [])) := by
  constructor
  · simp only [findMeetingsByName]
    by_cases hz : (nameMatchesOf b clk meetingName meetingDate).length = 0
    · rw [if_pos hz]
      rw [List.length_eq_zero.mp hz]
    · rw [if_neg hz]
      exact resolveLoop_trace b _ h
  · intro hnil
    simp only [findMeetingsByName]
    rw [if_pos (by rw [hnil]; rfl)]

theorem c1_witness :
    (findMeetingsByName wBackend wClk "standup" none).2 =
        nameMatchesOf wBackend wClk "standup" none
    ∧ nameMatchesOf wBackend wClk "standup" none = [evtA, evtB] :=
  ⟨(c1_name_filter_precedes_resolution wBackend wClk "standup" none (by decide)).1,
    by decide⟩

/-- C1 counterexample: two events survive the cheap filter, but the first
survivor's join URL "%" misses its exact lookup and then decodeURIComponent
throws URIError, so findMeetingsByName aborts after ONE resolver
invocation — the trace [evtBad] is shorter than the survivor list
[evtBad, evtA], refuting exactly-N-resolver-calls-for-N-survivors. -/
theorem c1_counterexample :
    nameMatchesOf cexBackend wClk "standup" none = [evtBad, evtA]
    ∧ (findMeetingsByName cexBackend wClk "standup" none).2 = [evtBad]
    ∧ (findMeetingsByName cexBackend wClk "standup" none).1 =
        Except.error "URIError: URI malformed" :=
  ⟨by decide, by decide, rfl⟩

lemma resolveOnlineMeeting_hit (b : GraphBackend) (u : String) (m : OnlineMeeting)
    (h : tryResolveByJoinUrl b u = some m) :
    resolveOnlineMeeting b u = (Except.ok (some m), [u]) := by
  simp [resolveOnlineMeeting, h]

lemma resolveOnlineMeeting_miss_ne (b : GraphBackend) (u d : String)
    (h : tryResolveByJoinUrl b u = none) (hdec : decodeURIComponentJS u = some d)
    (hne : ¬ d = u) :
    resolveOnlineMeeting b u = (Except.ok (tryResolveByJoinUrl b d), [u, d]) := by
  simp [resolveOnlineMeeting, h, hdec, hne]

lemma resolveOnlineMeeting_miss_eq (b : GraphBackend) (u d : String)
    (h : tryResolveByJoinUrl b u = none) (hdec : decodeURIComponentJS u = some d)
    (heq : d = u) :
    resolveOnlineMeeting b u = (Except.ok none, [u]) := by
  simp [resolveOnlineMeeting, h, hdec, heq]

/-- C5: resolution tries the exact join URL first and returns immediately
on a hit; only on a miss, and only when the percent-decoded form differs
from the original, does it retry exactly once with the decoded form,
returning that second lookup's result; the lookup trace starts with the
exact URL and never exceeds two attempts. -/
theorem c5_decoded_fallback (b : GraphBackend) (u d : String)
    (hdec : decodeURIComponentJS u = some d) :
    (resolveOnlineMeeting b u).2.length ≤ 2
    ∧ (resolveOnlineMeeting b u).2.head? = some u
    ∧ (∀ m, tryResolveByJoinUrl b u = some m →
        resolveOnlineMeeting b u = (Except.ok (some m), [u]))
    ∧ (tryResolveByJoinUrl b u = none → ¬ d = u →
        resolveOnlineMeeting b u = (Except.ok (tryResolveByJoinUrl b d), [u, d]))
    ∧ (tryResolveByJoinUrl b u = none → d = u →
        resolveOnlineMeeting b u = (Except.ok none, [u])) := by
  refine ⟨?_, ?_, ?_, ?_, ?_⟩
  · cases htr : tryResolveByJoinUrl b u with
    | some m =>
      rw [resolveOnlineMeeting_hit b u m htr]
      show (1 : Nat) ≤ 2
      decide
    | none =>
      by_cases hd : d = u
      · rw [resolveOnlineMeeting_miss_eq b u d htr hdec hd]
        show (1 : Nat) ≤ 2
        decide
      · rw [resolveOnlineMeeting_miss_ne b u d htr hdec hd]
        show (2 : Nat) ≤ 2
        decide
  · cases htr : tryResolveByJoinUrl b u with
    | some m => rw [resolveOnlineMeeting_hit b u m htr]; rfl
    | none =>
      by_cases hd : d = u
      · rw [resolveOnlineMeeting_miss_eq b u d htr hdec hd]; rfl
      · rw [resolveOnlineMeeting_miss_ne b u d htr hdec hd]; rfl
  · intro m hm; exact resolveOnlineMeeting_hit b u m hm
  · intro hnone hne; exact resolveOnlineMeeting_miss_ne b u d hnone hdec hne
  · intro hnone heq; exact resolveOnlineMeeting_miss_eq b u d hnone hdec heq

theorem c5_witness :
    resolveOnlineMeeting decBackend "https://teams.example/a%20b" =
      (Except.ok (tryResolveByJoinUrl decBackend "https://teams.example/a b"),
        ["https://teams.example/a%20b", "https://teams.example/a b"])
    ∧ tryResolveByJoinUrl decBackend "https://teams.example/a b" = some mtgD
    ∧ tryResolveByJoinUrl decBackend "https://teams.example/a%20b" = none :=
  ⟨(c5_decoded_fallback decBackend "https://teams.example/a%20b"
      "https://teams.example/a b" (by decide)).2.2.2.1 (by decide) (by decide),
    by decide, by decide⟩

lemma tryResolve_none_of_miss (b : GraphBackend)
    (hmiss : ∀ v, b.onlineMeetingsByJoinUrl v = none ∨
      b.onlineMeetingsByJoinUrl v = some []) :
    ∀ v, tryResolveByJoinUrl b v = none := by
  intro v
  unfold tryResolveByJoinUrl
  rcases hmiss v with h | h <;> simp [h]

/-- C6 (amended): fetchCalendarEvents fail-softs to the empty list on a
transport failure, and resolveOnlineMeeting does not throw whenever
percent-decoding of the join URL succeeds — under failing or empty
lookups it then returns null (ok none); but when decoding itself throws
the URIError propagates out of the resolver, so the unconditional
never-throws claim is refuted by the counterexample. -/
theorem c6_amended_fail_soft (b : GraphBackend) (startDT endDT : String)
    (maxEvents : Nat) (u d : String)
    (hfail : b.calendarView startDT endDT (min maxEvents 100) = none)
    (hdec : decodeURIComponentJS u = some d) :
    fetchCalendarEvents b startDT endDT maxEvents = []
    ∧ (resolveOnlineMeeting b u).1.isOk = true
    ∧ ((∀ v, b.onlineMeetingsByJoinUrl v = none ∨
          b.onlineMeetingsByJoinUrl v = some []) →
        (resolveOnlineMeeting b u).1 = Except.ok none) := by
  refine ⟨?_, ?_, ?_⟩
  · unfold fetchCalendarEvents
    rw [hfail]
  · cases htr : tryResolveByJoinUrl b u with
    | some m => rw [resolveOnlineMeeting_hit b u m htr]; rfl
    | none =>
      by_cases hd : d = u
      · rw [resolveOnlineMeeting_miss_eq b u d htr hdec hd]; rfl
      · rw [resolveOnlineMeeting_miss_ne b u d htr hdec hd]; rfl
  · intro hmiss
    have htr := tryResolve_none_of_miss b hmiss
    by_cases hd : d = u
    · rw [resolveOnlineMeeting_miss_eq b u d (htr u) hdec hd]
    · rw [resolveOnlineMeeting_miss_ne b u d (htr u) hdec hd, htr d]

theorem c6_amended_witness :
    fetchCalendarEvents failingBackend "s" "e" 7 = []
    ∧ (resolveOnlineMeeting failingBackend "a%20b").1.isOk = true
    ∧ (resolveOnlineMeeting failingBackend "a%20b").1 = Except.ok none := by
  have h := c6_amended_fail_soft failingBackend "s" "e" 7 "a%20b" "a b" rfl (by decide)
  exact ⟨h.1, h.2.1, h.2.2 (fun v => Or.inl rfl)⟩

/-- C6 counterexample: resolveOnlineMeeting CAN throw — when every lookup
misses and the join URL is a bare percent sign, decodeURIComponent throws
URIError and the error propagates out of the resolver instead of a null
result. -/
theorem c6_counterexample :
    (resolveOnlineMeeting failingBackend "%").1 =
      Except.error "URIError: URI malformed" := rfl

/-- C9 (amended): when resolution succeeds the returned subject is the
calendar subject only when that subject is truthy (nonempty) — an empty
calendar subject keeps the resolved subject, refuting the unconditional
overwrite claim (see the counterexample) — and the id, start, end and
join URL fields are returned unchanged, as the record update shows. -/
theorem c9_subject_overwrite (b : GraphBackend) (event : CalendarEvent)
    (om : OnlineMeetingInfo) (m : OnlineMeeting)
    (hom : event.onlineMeeting = some om) (hurl : ¬ om.joinUrl = "")
    (hres : (resolveOnlineMeeting b om.joinUrl).1 = Except.ok (some m)) :
    resolveCalendarEvent b event =
      (Except.ok (some { m with
          subject := if event.subject ≠ "" then event.subject else m.subject }),
        (resolveOnlineMeeting b om.joinUrl).2) := by
  cases hp : resolveOnlineMeeting b om.joinUrl with
  | mk fst snd =>
    rw [hp] at hres
    have hres2 : fst = Except.ok (some m) := hres
    subst hres2
    simp [resolveCalendarEvent, hom, hurl, hp]

theorem c9_witness :
    resolveCalendarEvent wBackend evtA =
      (Except.ok (some { mtgA with
          subject := if evtA.subject ≠ "" then evtA.subject else mtgA.subject }),
        (resolveOnlineMeeting wBackend "https://teams.example/join/a").2)
    ∧ (if evtA.subject ≠ "" then evtA.subject else mtgA.subject) = "Team Standup" :=
  ⟨c9_subject_overwrite wBackend evtA ⟨"https://teams.example/join/a"⟩ mtgA rfl
      (by decide) rfl,
    by decide⟩

/-- C9 counterexample: a successfully resolved event whose calendar
subject is empty keeps the resolved backend subject — the subject is NOT
overwritten with the calendar subject, contradicting the claim that the
overwrite happens regardless of the resolved object's subject. -/
theorem c9_counterexample :
    (resolveCalendarEvent b9 evtNoSubject).1 = Except.ok (some mtg9)
    ∧ mtg9.subject = "Backend Subject"
    ∧ evtNoSubject.subject = "" :=
  ⟨rfl, rfl, rfl⟩

lemma resolveUpTo_stop (b : GraphBackend) (limit : Nat) (e : CalendarEvent)
    (rest : List CalendarEvent) (count : Nat) (h : limit ≤ count) :
    resolveUpTo b limit (e :: rest) count = (Except.ok [], []) := by
  simp [resolveUpTo, h]

lemma resolveUpTo_err (b : GraphBackend) (limit : Nat) (e : CalendarEvent)
    (rest : List CalendarEvent) (count : Nat) (hc : ¬ limit ≤ count)
    (err : String) (tr : List String)
    (h : resolveCalendarEvent b e = (Except.error err, tr)) :
    resolveUpTo b limit (e :: rest) count = (Except.error err, [e]) := by
  simp [resolveUpTo, hc, h]

lemma resolveUpTo_skip (b : GraphBackend) (limit : Nat) (e : CalendarEvent)
    (rest : List CalendarEvent) (count : Nat) (hc : ¬ limit ≤ count)
    (tr : List String) (h : resolveCalendarEvent b e = (Except.ok none, tr)) :
    resolveUpTo b limit (e :: rest) count =
      ((resolveUpTo b limit rest count).1,
        e :: (resolveUpTo b limit rest count).2) := by
  simp [resolveUpTo, hc, h]

lemma resolveUpTo_take (b : GraphBackend) (limit : Nat) (e : CalendarEvent)
    (rest : List CalendarEvent) (count : Nat) (hc : ¬ limit ≤ count)
    (m : OnlineMeeting) (tr : List String)
    (h : resolveCalendarEvent b e = (Except.ok (some m), tr)) :
    resolveUpTo b limit (e :: rest) count =
      ((resolveUpTo b limit rest (count + 1)).1.map (fun ms => m :: ms),
        e :: (resolveUpTo b limit rest (count + 1)).2) := by
  simp [resolveUpTo, hc, h]

lemma resolveUpTo_length_le (b : GraphBackend) (limit : Nat) :
    ∀ evs count l, (resolveUpTo b limit evs count).1 = Except.ok l →
      l.length ≤ limit - count := by
  intro evs
  induction evs with
  | nil =>
    intro count l h
    have h2 : (Except.ok [] : Except String (List OnlineMeeting)) = Except.ok l := h
    injection h2 with h2
    rw [← h2]
    exact Nat.zero_le _
  | cons e rest ih =>
    intro count l h
    by_cases hc : limit ≤ count
    · rw [resolveUpTo_stop b limit e rest count hc] at h
      have h2 : (Except.ok [] : Except String (List OnlineMeeting)) = Except.ok l := h
      injection h2 with h2
      rw [← h2]
      exact Nat.zero_le _
    · cases hr : resolveCalendarEvent b e with
      | mk fst tr =>
        cases fst with
        | error err =>
          rw [resolveUpTo_err b limit e rest count hc err tr hr] at h
          exact absurd h (by simp)
        | ok mo =>
          cases mo with
          | none =>
            rw [resolveUpTo_skip b limit e rest count hc tr hr] at h
            exact ih count l h
          | some m =>
            rw [resolveUpTo_take b limit e rest count hc m tr hr] at h
            cases hrec : (resolveUpTo b limit rest (count + 1)).1 with
            | error e2 =>
              rw [hrec] at h
              exact absurd h (by simp [Except.map])
            | ok ms =>
              rw [hrec] at h
              have h2 : (Except.ok (m :: ms) : Except String (List OnlineMeeting))
                  = Except.ok l := h
              injection h2 with h2
              have hms := ih (count + 1) ms hrec
              rw [← h2]
              simp only [List.length_cons]
              omega

lemma resolveUpTo_early_exit (b : GraphBackend) (limit : Nat)
    (evs : List CalendarEvent) (count : Nat) (h : limit ≤ count) :
    resolveUpTo b limit evs count = (Except.ok [], []) := by
  cases evs with
  | nil => rfl
  | cons e rest => exact resolveUpTo_stop b limit e rest count h

lemma resolveUpTo_trace_length (b : GraphBackend) (limit : Nat) :
    ∀ evs count, (∀ e ∈ evs, resolvesOk b e = true) →
      (resolveUpTo b limit evs count).2.length = min (limit - count) evs.length := by
  intro evs
  induction evs with
  | nil =>
    intro count _
    show ([] : List CalendarEvent).length = min (limit - count) ([] : List CalendarEvent).length
    simp
  | cons e rest ih =>
    intro count h
    have he := h e (by simp)
    have hrest : ∀ x ∈ rest, resolvesOk b x = true := fun x hx => h x (by simp [hx])
    by_cases hc : limit ≤ count
    · rw [resolveUpTo_stop b limit e rest count hc]
      simp only [List.length_nil, List.length_cons]
      omega
    · unfold resolvesOk at he
      cases hr : resolveCalendarEvent b e with
      | mk fst tr =>
        rw [hr] at he
        cases fst with
        | error err => simp at he
        | ok mo =>
          cases mo with
          | none => simp at he
          | some m =>
            rw [resolveUpTo_take b limit e rest count hc m tr hr]
            have hrec := ih (count + 1) hrest
            simp only [List.length_cons, hrec]
            omega

/-- C8 (amended): listMeetings returns at most its requested limit and
stops resolving once the limit is reached: with top = limit at most limit
meetings come back, resolveUpTo exits immediately once the success count
reaches the limit, and when every candidate resolves the number of
resolver invocations is min(limit, candidate count) — bounded by the
requested output size, not the candidate set size. The only clamp to 50
is the caller-facing min(limit, 50) of handleListRecentMeetings (last
conjunct, stated at that clamped argument); listMeetings itself has no
internal defensive re-clamp, as the counterexample shows. -/
theorem c8_amended_limit_and_early_exit (b : GraphBackend) (clk : Clock)
    (limit : Nat) (date : Option String) :
    (∀ l, (listMeetings b clk (some limit) date).1 = Except.ok l → l.length ≤ limit)
    ∧ (∀ evs count, limit ≤ count →
        resolveUpTo b limit evs count = (Except.ok [], []))
    ∧ (∀ evs count, (∀ e ∈ evs, resolvesOk b e = true) →
        (resolveUpTo b limit evs count).2.length = min (limit - count) evs.length)
    ∧ (∀ l, (listMeetings b clk (some (min limit 50)) date).1 = Except.ok l →
        l.length ≤ min limit 50) := by
  refine ⟨?_, ?_, ?_, ?_⟩
  · intro l h
    simp only [listMeetings, Option.getD_some] at h
    have := resolveUpTo_length_le b limit _ 0 l h
    simpa using this
  · intro evs count hc
    exact resolveUpTo_early_exit b limit evs count hc
  · intro evs count h
    exact resolveUpTo_trace_length b limit evs count h
  · intro l h
    simp only [listMeetings, Option.getD_some] at h
    have := resolveUpTo_length_le b (min limit 50) _ 0 l h
    simpa using this

theorem c8_amended_witness :
    ([(⟨"id-u0", "Meeting 0", "st", "et", "u0"⟩ : OnlineMeeting),
        ⟨"id-u1", "Meeting 1", "st", "et", "u1"⟩] : List OnlineMeeting).length ≤ 2
    ∧ resolveUpTo bigBackend 2 [evtA, evtB, evtC] 5 = (Except.ok [], [])
    ∧ (resolveUpTo bigBackend 2 [evtA, evtB, evtC] 0).2.length =
        min (2 - 0) ([evtA, evtB, evtC] : List CalendarEvent).length := by
  obtain ⟨h1, h2, h3, _⟩ := c8_amended_limit_and_early_exit bigBackend wClk 2 none
  exact ⟨h1 _ rfl, h2 [evtA, evtB, evtC] 5 (by decide),
    h3 [evtA, evtB, evtC] 0 (by decide)⟩

/-- C8 counterexample: listMeetings applies no internal defensive clamp
to 50 — asked for top = 51 over 51 resolvable candidates it returns all
51 meetings, exceeding min(51, 50) = 50; the 50-clamp exists only at the
handleListRecentMeetings boundary. -/
theorem c8_counterexample :
    lengthOfOk (listMeetings bigBackend wClk (some 51) none).1 = 51
    ∧ min 51 50 = 50 :=
  ⟨by decide, by decide⟩

lemma startsWithCh_self_append (n s : List Char) : startsWithCh n (n ++ s) = true := by
  induction n with
  | nil => rfl
  | cons c m ih => simp [startsWithCh, ih]

lemma containsSub_within (n p s : List Char) : containsSub n (p ++ (n ++ s)) = true := by
  induction p with
  | nil =>
    cases n with
    | nil => cases s <;> simp [containsSub, startsWithCh]
    | cons c m =>
      simp only [List.nil_append, List.cons_append, containsSub, Bool.or_eq_true]
      exact Or.inl (startsWithCh_self_append (c :: m) s)
  | cons c p ih => simp [containsSub, ih]

lemma strIncludes_sandwich (a m b : String) : strIncludes (a ++ (m ++ b)) m = true := by
  unfold strIncludes
  rw [String.data_append, String.data_append]
  exact containsSub_within m.data a.data b.data

lemma str_head_of_append (a b : String) (c : Char) (h : a.data.head? = some c) :
    (a ++ b).data.head? = some c := by
  rw [String.data_append]
  cases ha : a.data with
  | nil => simp [ha] at h
  | cons x xs => simpa [ha] using h

lemma noTranscriptMsg_head (meeting : OnlineMeeting) :
    (noTranscriptMsg meeting).data.head? = some 'M' := by
  unfold noTranscriptMsg
  apply str_head_of_append
  apply str_head_of_append
  apply str_head_of_append
  apply str_head_of_append
  rfl

lemma notFoundMsg_head (mn : String) (md : Option String) :
    (notFoundMsg mn md).data.head? = some 'N' := by
  unfold notFoundMsg
  apply str_head_of_append
  apply str_head_of_append
  apply str_head_of_append
  apply str_head_of_append
  rfl

lemma transcript_msgs_distinct (meeting : OnlineMeeting) (mn : String)
    (md : Option String) : ¬ noTranscriptMsg meeting = notFoundMsg mn md := by
  intro heq
  have h1 := noTranscriptMsg_head meeting
  rw [heq, notFoundMsg_head mn md] at h1
  exact absurd h1 (by decide)

lemma noTranscriptMsg_mentions_subject (meeting : OnlineMeeting) :
    strIncludes (noTranscriptMsg meeting) meeting.subject = true := by
  have h : noTranscriptMsg meeting =
      "Meeting \"" ++ (meeting.subject ++ ("\" was found (" ++ (meeting.startDateTime ++
        ") but has no transcript available. Ensure transcription was enabled during the meeting."))) := by
    unfold noTranscriptMsg
    simp only [String.append_assoc]
  rw [h]
  exact strIncludes_sandwich _ _ _

lemma notFoundMsg_mentions_name (mn : String) (md : Option String) :
    strIncludes (notFoundMsg mn md) mn = true := by
  have h : notFoundMsg mn md =
      "No meeting found matching \"" ++ (mn ++ ("\"" ++
        ((match md with | some d => " on " ++ d | none => "") ++
          ". Try broadening your search term or checking the date."))) := by
    unfold notFoundMsg
    simp only [String.append_assoc]
  rw [h]
  exact strIncludes_sandwich _ _ _

lemma notFoundMsg_mentions_date (mn d : String) :
    strIncludes (notFoundMsg mn (some d)) d = true := by
  have h : notFoundMsg mn (some d) =
      ("No meeting found matching \"" ++ (mn ++ ("\"" ++ " on "))) ++ (d ++
        ". Try broadening your search term or checking the date.") := by
    unfold notFoundMsg
    simp only [String.append_assoc]
  rw [h]
  exact strIncludes_sandwich _ _ _

/-- C7: when a meeting is found but its transcript list is empty, the
handler returns the transcript-unavailable message naming the meeting
subject, makes no content-download request, and that message is textually
distinct from the not-found message, which names the search term and any
date filter applied. -/
theorem c7_empty_transcript_list (b : GraphBackend) (clk : Clock)
    (mn : String) (md : Option String) (meeting : OnlineMeeting)
    (rest : List OnlineMeeting)
    (hmn : ¬ mn = "")
    (hfound : (findMeetingsByName b clk mn md).1 = Except.ok (meeting :: rest))
    (hempty : listTranscripts b meeting.id = Except.ok []) :
    handleGetMeetingTranscript b clk (some mn) md =
        (Except.ok ⟨noTranscriptMsg meeting, false⟩, [])
    ∧ ¬ noTranscriptMsg meeting = notFoundMsg mn md
    ∧ strIncludes (noTranscriptMsg meeting) meeting.subject = true
    ∧ strIncludes (notFoundMsg mn md) mn = true
    ∧ ∀ d, md = some d → strIncludes (notFoundMsg mn md) d = true := by
  refine ⟨?_, transcript_msgs_distinct meeting mn md,
    noTranscriptMsg_mentions_subject meeting,
    notFoundMsg_mentions_name mn md, ?_⟩
  · simp only [handleGetMeetingTranscript, if_neg hmn, hfound, hempty]
  · intro d hd
    rw [hd]
    exact notFoundMsg_mentions_date mn d

theorem c7_witness :
    handleGetMeetingTranscript wBackend wClk (some "standup") none =
      (Except.ok ⟨noTranscriptMsg mtgAres, false⟩, [])
    ∧ ¬ noTranscriptMsg mtgAres = notFoundMsg "standup" none := by
  have h := c7_empty_transcript_list wBackend wClk "standup" none mtgAres [mtgBres]
    (by decide) rfl rfl
  exact ⟨h.1, h.2.1⟩
